import Mathlib

/-!
Verification of the CV-Alchemist backend (src/main.py) against its
natural-language specification.

Strings are modelled as `List Char` (`Str`).  External collaborators
(the PDF/DOCX decoders, the LLM, `json.loads`, `uuid4`, the payment
processor) are opaque oracles, passed in as parameters, following §6 of
the specification.  Python-level behaviours that matter to the claims
(truthiness of strings, `str.strip`, `os.path.splitext`, `str.lower`,
`re.search` with `re.DOTALL`, `dict` insertion and in-place mutation,
`str.replace`) are embedded explicitly below.
-/

set_option autoImplicit false

/-- Strings of the Python program, modelled as character lists. -/
abbrev Str := List Char

/-- Coerce a Lean string literal to the `Str` model. -/
def S (s : String) : Str := s.data

/-- Python `str.isspace`-style character test, restricted to the ASCII
whitespace characters (space, tab, newline, vertical tab, form feed,
carriage return).  `str.strip()` with no argument strips exactly these
characters (plus further Unicode spaces, which this model omits). -/
def pyIsSpace (c : Char) : Bool :=
  c = ' ' || c = '\t' || c = '\n' || c = '\x0b' || c = '\x0c' || c = '\r'

/-- Python `str.lower`, character by character (ASCII-adequate model). -/
def pyLower (s : Str) : Str := s.map Char.toLower

/-- Index of the first occurrence of `c` in the list, if any. -/
def firstIdxOf (c : Char) : Str → Option Nat
  | [] => none
  | a :: as => if a = c then some 0 else (firstIdxOf c as).map (· + 1)

/-- Index of the last occurrence of `c` in the list, if any. -/
def lastIdxOf (c : Char) : Str → Option Nat
  | [] => none
  | a :: as =>
    match lastIdxOf c as with
    | some j => some (j + 1)
    | none => if a = c then some 0 else none

/-- Model of `os.path.splitext(name)[1]` for a bare file name (no directory
separators, as produced by an upload's `filename`): the extension starts
at the last dot, provided some earlier character of the name is not a
dot (so `".bashrc"`-style names have no extension). -/
def splitextExt (name : Str) : Str :=
  match lastIdxOf '.' name with
  | none => []
  | some d => if (name.take d).any (fun c => !(c = '.')) then name.drop d else []

/-!  ## Tolerant JSON extraction (src/main.py lines 164-175)

`re.search(r'\x7b.*\x7d', response_text, re.DOTALL)`: the regex engine
tries each start position from the left; at a position where `\x7b`
matches, the greedy `.*` (with DOTALL matching newlines too) consumes to
the end of the string and backtracks to the rightmost following `\x7d`;
if none exists the engine moves to the next start position. -/

/-- The prefix of `s` up to and including the last `\x7d` in `s`
(the backtracking of the greedy `.*` before the final `\x7d`). -/
def takeThruLastClose : Str → Option Str
  | [] => none
  | c :: cs =>
    match takeThruLastClose cs with
    | some t => some (c :: t)
    | none => if c = '\x7d' then some [c] else none

/-- Model of `re.search` for the pattern `r'\x7b.*\x7d'` with `re.DOTALL`,
returning `match.group(0)`. -/
def reSearchJsonObject : Str → Option Str
  | [] => none
  | c :: cs =>
    if c = '\x7b' then
      match takeThruLastClose cs with
      | some t => some (c :: t)
      | none => reSearchJsonObject cs
    else reSearchJsonObject cs

/-- Failure taxonomy of the tolerant JSON extractor (spec §4.2/§7); in the
code both arms raise `ValueError` with the messages modelled in
`parseErrorMessage` below. -/
inductive AnalyzeParseError where
  | NoJsonFound
  | MalformedJson
deriving DecidableEq

/-- Lines 164-175 of `analyze`: locate a JSON-object candidate in the raw
LLM response via the regex search, then hand it to `json.loads`
(the opaque `loads` oracle; `none` models a `JSONDecodeError`). -/
def cleanAndParseResponse {J : Type} (loads : Str → Option J) (response_text : Str) :
    Except AnalyzeParseError J :=
  match reSearchJsonObject response_text with
  | some json_str =>
    match loads json_str with
    | some v => Except.ok v
    | none => Except.error AnalyzeParseError.MalformedJson
  | none => Except.error AnalyzeParseError.NoJsonFound

/-- Spec-side candidate (§4.2, written from the specification's words, to
be compared with the source-side `reSearchJsonObject`): the substring
from the first `\x7b` to the last `\x7d`, greedy, spanning newlines, not
balance-aware; no candidate when no such span exists. -/
def specJsonCandidate (s : Str) : Option Str :=
  match firstIdxOf '\x7b' s, lastIdxOf '\x7d' s with
  | some i, some j => if i < j then some ((s.drop i).take (j + 1 - i)) else none
  | _, _ => none

/-- Python `str` message of the `ValueError` raised for each parse
failure (lines 173 and 175). -/
def parseErrorMessage : AnalyzeParseError → Str
  | AnalyzeParseError.NoJsonFound => S "Could not find a valid JSON object in the AI response."
  | AnalyzeParseError.MalformedJson => S "Failed to decode JSON from the AI response."

theorem takeThruLastClose_eq (s : Str) :
    takeThruLastClose s = (lastIdxOf '\x7d' s).map (fun j => s.take (j + 1)) := by
  induction s with
  | nil => rfl
  | cons a as ih =>
    simp only [takeThruLastClose, lastIdxOf, ih]
    cases h : lastIdxOf '\x7d' as with
    | some j => simp [List.take_succ_cons]
    | none =>
      by_cases ha : a = '\x7d' <;> simp [ha]

theorem firstIdxOf_cons_self (c : Char) (cs : Str) :
    firstIdxOf c (c :: cs) = some 0 := by
  simp [firstIdxOf]

theorem firstIdxOf_cons_ne {a c : Char} (h : ¬ a = c) (cs : Str) :
    firstIdxOf c (a :: cs) = (firstIdxOf c cs).map (· + 1) := by
  simp [firstIdxOf, h]

theorem lastIdxOf_cons_some {c : Char} {cs : Str} {j : Nat} (a : Char)
    (h : lastIdxOf c cs = some j) : lastIdxOf c (a :: cs) = some (j + 1) := by
  simp [lastIdxOf, h]

theorem lastIdxOf_cons_none_ne {a c : Char} {cs : Str} (h : lastIdxOf c cs = none)
    (ha : ¬ a = c) : lastIdxOf c (a :: cs) = none := by
  simp [lastIdxOf, h, ha]

theorem lastIdxOf_cons_none_self {c : Char} {cs : Str} (h : lastIdxOf c cs = none) :
    lastIdxOf c (c :: cs) = some 0 := by
  simp [lastIdxOf, h]

theorem reSearchJsonObject_cons_open (cs : Str) :
    reSearchJsonObject ('\x7b' :: cs) =
      (match takeThruLastClose cs with
       | some t => some ('\x7b' :: t)
       | none => reSearchJsonObject cs) := by
  simp [reSearchJsonObject]

theorem reSearchJsonObject_cons_ne {c : Char} (h : ¬ c = '\x7b') (cs : Str) :
    reSearchJsonObject (c :: cs) = reSearchJsonObject cs := by
  simp [reSearchJsonObject, h]

theorem reSearchJsonObject_eq_spec (s : Str) :
    reSearchJsonObject s = specJsonCandidate s := by
  induction s with
  | nil => rfl
  | cons c cs ih =>
    by_cases hc : c = '\x7b'
    · subst hc
      rw [reSearchJsonObject_cons_open, takeThruLastClose_eq]
      cases h : lastIdxOf '\x7d' cs with
      | some j =>
        have h2 : lastIdxOf '\x7d' ('\x7b' :: cs) = some (j + 1) :=
          lastIdxOf_cons_some _ h
        simp [specJsonCandidate, firstIdxOf_cons_self, h2, List.take_succ_cons]
      | none =>
        have h2 : lastIdxOf '\x7d' ('\x7b' :: cs) = none :=
          lastIdxOf_cons_none_ne h (by decide)
        rw [ih]
        cases hf : firstIdxOf '\x7b' cs <;>
          simp [specJsonCandidate, firstIdxOf_cons_self, h, h2, hf]
    · rw [reSearchJsonObject_cons_ne hc, ih]
      cases hf : firstIdxOf '\x7b' cs with
      | none =>
        simp [specJsonCandidate, firstIdxOf_cons_ne hc, hf]
      | some i =>
        cases hl : lastIdxOf '\x7d' cs with
        | some j =>
          have h2 : lastIdxOf '\x7d' (c :: cs) = some (j + 1) :=
            lastIdxOf_cons_some _ hl
          by_cases hij : i < j
          · have hij1 : i + 1 < j + 1 := Nat.succ_lt_succ hij
            have harith : j + 1 + 1 - (i + 1) = j + 1 - i := by omega
            simp [specJsonCandidate, firstIdxOf_cons_ne hc, hf, hl, h2, hij, hij1,
              List.drop_succ_cons, harith]
          · have hij1 : ¬ (i + 1 < j + 1) := by omega
            simp [specJsonCandidate, firstIdxOf_cons_ne hc, hf, hl, h2, hij, hij1]
        | none =>
          by_cases hcd : c = '\x7d'
          · subst hcd
            have h2 : lastIdxOf '\x7d' ('\x7d' :: cs) = some 0 :=
              lastIdxOf_cons_none_self hl
            simp [specJsonCandidate, firstIdxOf_cons_ne hc, hf, hl, h2]
          · have h2 : lastIdxOf '\x7d' (c :: cs) = none :=
              lastIdxOf_cons_none_ne hl hcd
            simp [specJsonCandidate, firstIdxOf_cons_ne hc, hf, hl, h2]

/-!  ## Analysis cache and HTTP responses -/

/-- The dict the orchestrator caches and returns: the object parsed from
the LLM response (opaque payload `parsed : J`, holding `score` and
`feedback`), plus the `raw_text_preview` entry set on line 177 and the
`result_id` entry set on line 182 (absent between lines 181 and 182). -/
structure CachedResult (J : Type) where
  parsed : J
  raw_text_preview : Str
  result_id : Option Str
deriving DecidableEq

/-- Model of `analysis_cache` (line 37): a Python dict from result id to result,
modelled as an association list in insertion order. -/
abbrev Cache (J : Type) := List (Str × CachedResult J)

/-- Model of `analysis_cache.get(k)`: first entry with the given key, if any. -/
def cacheGet {J : Type} : Cache J → Str → Option (CachedResult J)
  | [], _ => none
  | (k', v) :: rest, k => if k' = k then some v else cacheGet rest k

/-- Key-membership test of the dict. -/
def cacheHas {J : Type} (c : Cache J) (k : Str) : Bool :=
  (cacheGet c k).isSome

/-- Model of `analysis_cache[k] = v`: update in place when the key is present,
append in insertion order when it is new. -/
def cacheSet {J : Type} (c : Cache J) (k : Str) (v : CachedResult J) : Cache J :=
  if cacheHas c k then c.map (fun p => if p.1 = k then (k, v) else p)
  else c ++ [(k, v)]

/-- Keys of the dict, in insertion order. -/
def cacheKeys {J : Type} (c : Cache J) : List Str := c.map (fun p => p.1)

/-- Shape of the endpoint responses: a FastAPI handler either returns a
plain value (HTTP 200) or a `JSONResponse` with an error status code and
a `detail` message. -/
inductive HttpResponse (α : Type) where
  | ok (body : α)
  | badRequest (detail : Str)
  | notFound (detail : Str)
  | serverError (detail : Str)
deriving DecidableEq

/-!  ## Literal strings of src/main.py -/

/-- Line 137. -/
def unsupportedDetail : Str := S "Unsupported file type. Please upload a PDF or DOCX."

/-- Line 140. -/
def emptyExtractionDetail : Str := S "Could not extract text from the document. It might be an image-only file."

/-- Line 187: `f"An error occurred during analysis: \x7be\x7d"`. -/
def analysisErrorDetail (e : Str) : Str := S "An error occurred during analysis: " ++ e

/-- Line 115. -/
def resultNotFoundDetail : Str := S "Result not found or expired."

/-- Line 258. -/
def processorNotConfiguredDetail : Str := S "Payment processor is not configured."

/-- Segment of the job-specific prompt before the job title (line 145). -/
def analysisTitledPre : Str :=
  S "Analyze the following resume for the position of \x27"

/-- Segment of the job-specific prompt between job title and resume text
(lines 145-148). -/
def analysisTitledMid : Str :=
  S "\x27.\n    Provide a score and feedback based on its suitability for that specific role.\n    Resume Text: \n    "

/-- Segment of the job-specific prompt after the resume text
(lines 148-152). -/
def analysisTitledPost : Str :=
  S "\n    \n    Return your response as a JSON object with two keys: \"score\" (an integer between 0 and 100), and \"feedback\" (a list of short, actionable feedback strings).\n    Example: \x7b\"score\": 85, \"feedback\": [\"Great use of action verbs.\", \"Consider adding a summary section.\"]\x7d\n    "

/-- Segment of the general prompt before the resume text (lines 154-157). -/
def analysisGeneralPre : Str :=
  S "Analyze the following resume and provide a general analysis.\n    Provide a score and feedback on its overall quality, structure, and clarity.\n    Resume Text: \n    "

/-- Segment of the general prompt after the resume text (lines 157-161). -/
def analysisGeneralPost : Str :=
  S "\n    \n    Return your response as a JSON object with two keys: \"score\" (an integer between 0 and 100), and \"feedback\" (a list of short, actionable feedback strings for general improvement).\n    Example: \x7b\"score\": 75, \"feedback\": [\"The resume is well-structured.\", \"Consider quantifying achievements with numbers.\"]\x7d\n    "

/-- The job-specific analysis prompt (lines 145-152), with the resume
text already truncated by `text[:8000]` at the interpolation site. -/
def analysisPromptTitled (job_title text8000 : Str) : Str :=
  analysisTitledPre ++ job_title ++ analysisTitledMid ++ text8000 ++ analysisTitledPost

/-- The general analysis prompt (lines 154-161). -/
def analysisPromptGeneral (text8000 : Str) : Str :=
  analysisGeneralPre ++ text8000 ++ analysisGeneralPost

/-- Lines 144-161: choose the job-specific prompt when `job_title` is
truthy and has a non-blank strip (equivalently: contains a non-space
character), the general prompt otherwise; either way the resume text is
truncated to `text[:8000]` at the interpolation site. -/
def analysisPrompt (job_title text : Str) : Str :=
  if job_title.any (fun c => !(pyIsSpace c)) then
    analysisPromptTitled job_title (text.take 8000)
  else
    analysisPromptGeneral (text.take 8000)

/-!  ## The /analyze orchestrator (lines 118-190) -/

/-- The external collaborators of one `/analyze` request, as opaque
oracles: `shutil.copyfileobj` into the temp file (raises on I/O error),
`pdfminer`'s `extract_text`, `docx.Document(...).paragraphs` (the list of
paragraph texts), `model.generate_content` as a function of the prompt
(returning `response.text`), `json.loads` (with `none` for a
`JSONDecodeError`), and `str(uuid.uuid4())`.  `Except` errors carry the
Python `str(e)` of the raised exception. -/
structure AnalyzeOracles (J : Type) where
  copyToTemp : Except Str Unit
  extract_pdf : Except Str Str
  docxParagraphs : Except Str (List Str)
  llm : Str → Except Str Str
  loads : Str → Option J
  freshId : Str

/-- Observable outcome of one `/analyze` request: the HTTP response, the
final state of `analysis_cache`, every intermediate state of
`analysis_cache` at Python statement granularity (first entry: the state
on entry; last entry: the final state), the prompt handed to the LLM
oracle (`none` when `generate_content` was never invoked), and the
lifecycle of the temporary file. -/
structure AnalyzeRun (J : Type) where
  response : HttpResponse (CachedResult J)
  finalCache : Cache J
  cacheStates : List (Cache J)
  llmPrompt : Option Str
  tempCreated : Bool
  tempDeleted : Bool

/-- The `/analyze` handler (lines 118-190).  Note the order of events in
the source: the extension is computed on line 122; the temporary file is
created and the upload copied into it (lines 126-128) with
`temp_file_path` assigned only after the copy, so a copy failure leaves
the path empty and the `finally` block (lines 188-190) then skips the
removal; the extension dispatch (lines 131-137) runs after the copy; the
blank-text check (line 139) uses `text.strip()`; the prompt embeds
`text[:8000]`; lines 177-182 set `raw_text_preview`, insert the dict
into the cache, and then mutate the (aliased) cached dict by attaching
`result_id`. -/
def analyze {J : Type} (or : AnalyzeOracles J) (cache : Cache J)
    (filename job_title : Str) : AnalyzeRun J :=
  let file_extension := pyLower (splitextExt filename)
  match or.copyToTemp with
  | Except.error e =>
    ⟨HttpResponse.serverError (analysisErrorDetail e), cache, [cache], none, true, false⟩
  | Except.ok _ =>
    let afterText : Str → AnalyzeRun J := fun text =>
      if text.all pyIsSpace then
        ⟨HttpResponse.badRequest emptyExtractionDetail, cache, [cache], none, true, true⟩
      else
        let prompt := analysisPrompt job_title text
        match or.llm prompt with
        | Except.error e =>
          ⟨HttpResponse.serverError (analysisErrorDetail e), cache, [cache], some prompt, true, true⟩
        | Except.ok response_text =>
          match cleanAndParseResponse or.loads response_text with
          | Except.error pe =>
            ⟨HttpResponse.serverError (analysisErrorDetail (parseErrorMessage pe)), cache,
              [cache], some prompt, true, true⟩
          | Except.ok v =>
            let r0 : CachedResult J := ⟨v, text.take 2000, none⟩
            let c1 := cacheSet cache or.freshId r0
            let r1 : CachedResult J := ⟨v, text.take 2000, some or.freshId⟩
            let c2 := cacheSet c1 or.freshId r1
            ⟨HttpResponse.ok r1, c2, [cache, c1, c2], some prompt, true, true⟩
    if file_extension = S ".pdf" then
      match or.extract_pdf with
      | Except.error e =>
        ⟨HttpResponse.serverError (analysisErrorDetail e), cache, [cache], none, true, true⟩
      | Except.ok text => afterText text
    else if file_extension = S ".docx" then
      match or.docxParagraphs with
      | Except.error e =>
        ⟨HttpResponse.serverError (analysisErrorDetail e), cache, [cache], none, true, true⟩
      | Except.ok ps => afterText (List.intercalate (S "\n") ps)
    else
      ⟨HttpResponse.badRequest unsupportedDetail, cache, [cache], none, true, true⟩

/-- The `GET /result/{result_id}` handler (lines 110-116).
`analysis_cache.get` yields `None` exactly when the key is absent; a
present value is a dict that always carries at least
`raw_text_preview`, hence is truthy, so `if not result` catches exactly
the absent case. -/
def get_result {J : Type} (cache : Cache J) (result_id : Str) :
    HttpResponse (CachedResult J) :=
  match cacheGet cache result_id with
  | none => HttpResponse.notFound resultNotFoundDetail
  | some result => HttpResponse.ok result

/-!  ## The /rewrite orchestrator (lines 192-202) -/

/-- Python `res.text.replace("\x60\x60\x60", "")`: scan left to right and
drop each non-overlapping occurrence of three backticks. -/
def replaceTicks : Str → Str
  | a :: b :: c :: rest =>
    if a = '\x60' ∧ b = '\x60' ∧ c = '\x60' then replaceTicks rest
    else a :: replaceTicks (b :: c :: rest)
  | s => s

/-- Holds (`true`) when the string contains no run of three consecutive
backticks (no code-fence marker). -/
def fenceFreeB : Str → Bool
  | a :: b :: c :: rest =>
    if a = '\x60' ∧ b = '\x60' ∧ c = '\x60' then false else fenceFreeB (b :: c :: rest)
  | _ => true

/-- External collaborator of `/rewrite`: `model.generate_content` as a
function of the prompt, returning `res.text`, or raising (the error
carries `str(e)`). -/
structure RewriteOracles where
  llm : Str → Except Str Str

/-- Observable outcome of one `/rewrite` request: the prompt handed to
the LLM oracle and the HTTP response (the body being the value of the
`optimized_text` key). -/
structure RewriteRun where
  llmPrompt : Str
  response : HttpResponse Str

/-- The `/rewrite` handler (lines 192-202).  `job_title` is
`req.get('job_title', 'the user-specified position')` (`none` models an
absent key), `text` is `req.get('text', '')[:8000]`; any exception is
swallowed into a 200 response whose body is `f"Error: \x7be\x7d"`. -/
def rewritePromptPre : Str :=
  S "Rewrite this resume to be highly optimized for the position of \x27"

/-- Segment of the rewrite prompt between job title and resume text. -/
def rewritePromptMid : Str :=
  S "\x27. Return text only:\n"

/-- The rewrite prompt (line 197). -/
def rewritePrompt (jt text8000 : Str) : Str :=
  rewritePromptPre ++ jt ++ rewritePromptMid ++ text8000

/-- The single rewrite prompt template (line 197), with the resume text
already truncated by `[:8000]` at the interpolation site. -/
def rewrite (or : RewriteOracles) (job_title : Option Str) (text : Option Str) :
    RewriteRun :=
  let prompt :=
    rewritePrompt (job_title.getD (S "the user-specified position")) ((text.getD []).take 8000)
  match or.llm prompt with
  | Except.ok t => ⟨prompt, HttpResponse.ok (replaceTicks t)⟩
  | Except.error e => ⟨prompt, HttpResponse.ok (S "Error: " ++ e)⟩

/-!  ## The /create-checkout-session endpoint (lines 254-270) -/

/-- Python truthiness of `stripe.api_key` (`None` or the empty string is
falsy). -/
def pyTruthy (s : Option Str) : Bool :=
  match s with
  | none => false
  | some t => !(t.isEmpty)

/-- Observable outcome of one `/create-checkout-session` request: the
HTTP response (body: the session url), whether the payment oracle was
contacted, and the session payload's redirect targets (built from
`req.get('origin_url')`, which Python renders as the string `None` when
the key is absent); `none` when no payload was constructed. -/
structure CheckoutRun where
  response : HttpResponse Str
  oracleContacted : Bool
  payload : Option (Str × Str)

/-- The `/create-checkout-session` handler (lines 254-270).  The
`oracle` is `stripe.checkout.Session.create`, returning the session url
or raising. -/
def checkout (api_key : Option Str) (oracle : Except Str Str)
    (origin_url : Option Str) : CheckoutRun :=
  if pyTruthy api_key then
    let origin := origin_url.getD (S "None")
    let payload := (origin ++ S "?success=true", origin ++ S "?canceled=true")
    match oracle with
    | Except.ok url => ⟨HttpResponse.ok url, true, some payload⟩
    | Except.error e => ⟨HttpResponse.serverError e, true, some payload⟩
  else
    ⟨HttpResponse.serverError processorNotConfiguredDetail, false, none⟩

/-!  ## Multi-request traces over the shared analysis cache

Spec §5: single-process cooperative scheduling; the cache-writing
statements of `/analyze` (lines 181-182) contain no suspension point, so
requests interleave only at whole-request granularity with respect to
`analysis_cache`. -/

/-- One HTTP request, as far as `analysis_cache` is concerned: an
`/analyze` request with its oracles and inputs, or any of the other
requests (`GET /result`, `/rewrite`, `/create-checkout-session`,
`/contact`, the downloads), none of which writes the cache. -/
inductive Request (J : Type) where
  | analyzeReq (or : AnalyzeOracles J) (filename job_title : Str)
  | readOnlyReq

/-- The state of `analysis_cache` after serving one request. -/
def stepCache {J : Type} (c : Cache J) : Request J → Cache J
  | Request.analyzeReq or filename job_title => (analyze or c filename job_title).finalCache
  | Request.readOnlyReq => c

/-- The state of `analysis_cache` after serving a list of requests. -/
def foldCache {J : Type} (c : Cache J) (reqs : List (Request J)) : Cache J :=
  reqs.foldl stepCache c

/-- The states of `analysis_cache` observed at request boundaries:
the initial state followed by the state after each request. -/
def traceCaches {J : Type} (c : Cache J) : List (Request J) → List (Cache J)
  | [] => [c]
  | r :: rs => c :: traceCaches (stepCache c r) rs

/-- The model of `str(uuid.uuid4())`: every `/analyze` request of the
run draws an identifier that does not yet occur in the cache it runs
against. -/
def FreshRun {J : Type} : Cache J → List (Request J) → Prop
  | _, [] => True
  | c, r :: rs =>
    (match r with
     | Request.analyzeReq or _ _ => or.freshId ∉ cacheKeys c
     | Request.readOnlyReq => True) ∧ FreshRun (stepCache c r) rs

/-!  ## Cache lemmas -/

theorem cacheKeys_cons {J : Type} (p : Str × CachedResult J) (rest : Cache J) :
    cacheKeys (p :: rest) = p.1 :: cacheKeys rest := rfl

theorem cacheKeys_append {J : Type} (c d : Cache J) :
    cacheKeys (c ++ d) = cacheKeys c ++ cacheKeys d := by
  simp [cacheKeys]

theorem mem_cacheKeys_of_get {J : Type} {c : Cache J} {k : Str} {v : CachedResult J}
    (h : cacheGet c k = some v) : k ∈ cacheKeys c := by
  induction c with
  | nil => simp [cacheGet] at h
  | cons p rest ih =>
    obtain ⟨k', w⟩ := p
    rw [cacheKeys_cons]
    by_cases he : k' = k
    · simp [he]
    · simp only [cacheGet, if_neg he] at h
      exact List.mem_cons_of_mem _ (ih h)

theorem cacheGet_none_of_not_mem {J : Type} {c : Cache J} {k : Str}
    (h : k ∉ cacheKeys c) : cacheGet c k = none := by
  cases hg : cacheGet c k with
  | none => rfl
  | some v => exact absurd (mem_cacheKeys_of_get hg) h

theorem cacheGet_append_left {J : Type} {c : Cache J} {k : Str} {v : CachedResult J}
    (d : Cache J) (h : cacheGet c k = some v) : cacheGet (c ++ d) k = some v := by
  induction c with
  | nil => simp [cacheGet] at h
  | cons p rest ih =>
    obtain ⟨k', w⟩ := p
    by_cases he : k' = k
    · simp only [cacheGet, if_pos he] at h ⊢
      exact h
    · simp only [cacheGet, if_neg he] at h ⊢
      exact ih h

theorem cacheGet_append_of_none {J : Type} {c : Cache J} {k : Str} (d : Cache J)
    (h : cacheGet c k = none) : cacheGet (c ++ d) k = cacheGet d k := by
  induction c with
  | nil => rfl
  | cons p rest ih =>
    obtain ⟨k', w⟩ := p
    by_cases he : k' = k
    · simp [cacheGet, he] at h
    · simp only [cacheGet, if_neg he] at h ⊢
      exact ih h

theorem cacheGet_append_single_self {J : Type} {c : Cache J} {k : Str}
    (v : CachedResult J) (h : k ∉ cacheKeys c) :
    cacheGet (c ++ [(k, v)]) k = some v := by
  rw [cacheGet_append_of_none _ (cacheGet_none_of_not_mem h)]
  simp [cacheGet]

theorem cacheSet_fresh {J : Type} {c : Cache J} {k : Str} (v : CachedResult J)
    (h : k ∉ cacheKeys c) : cacheSet c k v = c ++ [(k, v)] := by
  simp [cacheSet, cacheHas, cacheGet_none_of_not_mem h]

theorem cacheSet_append_self {J : Type} {c : Cache J} {k : Str}
    (v w : CachedResult J) (h : k ∉ cacheKeys c) :
    cacheSet (c ++ [(k, v)]) k w = c ++ [(k, w)] := by
  have hhas : cacheHas (c ++ [(k, v)]) k = true := by
    simp [cacheHas, cacheGet_append_single_self v h]
  simp only [cacheSet, hhas, if_pos]
  rw [List.map_append]
  congr 1
  · have hmap : ∀ p ∈ c, (fun p : Str × CachedResult J =>
        if p.1 = k then (k, w) else p) p = id p := by
      intro p hp
      have hne : p.1 ≠ k := by
        intro he
        exact h (he ▸ List.mem_map_of_mem _ hp)
      simp [hne]
    rw [List.map_congr_left hmap, List.map_id]
  · simp

theorem cacheKeys_nodup_append {J : Type} {c : Cache J} {k : Str}
    (v : CachedResult J) (hnd : (cacheKeys c).Nodup) (h : k ∉ cacheKeys c) :
    (cacheKeys (c ++ [(k, v)])).Nodup := by
  rw [cacheKeys_append]
  simp only [cacheKeys_cons]
  rw [List.nodup_append]
  refine ⟨hnd, by simp [cacheKeys], ?_⟩
  intro a ha hb
  simp [cacheKeys] at hb
  exact h (hb ▸ ha)

/-!  ## Anatomy of one /analyze request with respect to the cache -/

theorem analyze_cacheStates_shape {J : Type} (or : AnalyzeOracles J) (c : Cache J)
    (filename job_title : Str) (h : or.freshId ∉ cacheKeys c) :
    ((analyze or c filename job_title).finalCache = c ∧
     (analyze or c filename job_title).cacheStates = [c] ∧
     (∀ r, ¬ (analyze or c filename job_title).response = HttpResponse.ok r)) ∨
    (∃ (v : J) (preview : Str),
     (analyze or c filename job_title).response =
       HttpResponse.ok ⟨v, preview, some or.freshId⟩ ∧
     (analyze or c filename job_title).finalCache =
       c ++ [(or.freshId, ⟨v, preview, some or.freshId⟩)] ∧
     (analyze or c filename job_title).cacheStates =
       [c, c ++ [(or.freshId, ⟨v, preview, none⟩)],
        c ++ [(or.freshId, ⟨v, preview, some or.freshId⟩)]]) := by
  cases hcopy : or.copyToTemp with
  | error e => left; simp only [analyze, hcopy]; exact ⟨by trivial, by trivial, fun r hEq => HttpResponse.noConfusion hEq⟩
  | ok u =>
    by_cases hpdf : pyLower (splitextExt filename) = S ".pdf"
    · cases hext : or.extract_pdf with
      | error e =>
        left
        simp only [analyze, hcopy]
        rw [if_pos hpdf]
        simp only [hext]
        exact ⟨by trivial, by trivial, fun r hEq => HttpResponse.noConfusion hEq⟩
      | ok text =>
        by_cases hblank : text.all pyIsSpace = true
        · left
          simp only [analyze, hcopy]
          rw [if_pos hpdf]
          simp only [hext]
          rw [if_pos hblank]
          exact ⟨by trivial, by trivial, fun r hEq => HttpResponse.noConfusion hEq⟩
        · cases hllm : or.llm (analysisPrompt job_title text) with
          | error e =>
            left
            simp only [analyze, hcopy]
            rw [if_pos hpdf]
            simp only [hext]
            rw [if_neg hblank]
            simp only [hllm]
            exact ⟨by trivial, by trivial, fun r hEq => HttpResponse.noConfusion hEq⟩
          | ok response_text =>
            cases hparse : cleanAndParseResponse or.loads response_text with
            | error pe =>
              left
              simp only [analyze, hcopy]
              rw [if_pos hpdf]
              simp only [hext]
              rw [if_neg hblank]
              simp only [hllm, hparse]
              exact ⟨by trivial, by trivial, fun r hEq => HttpResponse.noConfusion hEq⟩
            | ok v =>
              right
              refine ⟨v, text.take 2000, ?_⟩
              simp only [analyze, hcopy]
              rw [if_pos hpdf]
              simp only [hext]
              rw [if_neg hblank]
              simp only [hllm, hparse]
              rw [cacheSet_fresh _ h, cacheSet_append_self _ _ h]
              exact ⟨by trivial, by trivial, by trivial⟩
    · by_cases hdocx : pyLower (splitextExt filename) = S ".docx"
      · cases hext : or.docxParagraphs with
        | error e =>
          left
          simp only [analyze, hcopy]
          rw [if_neg hpdf, if_pos hdocx]
          simp only [hext]
          exact ⟨by trivial, by trivial, fun r hEq => HttpResponse.noConfusion hEq⟩
        | ok ps =>
          by_cases hblank : (List.intercalate (S "\n") ps).all pyIsSpace = true
          · left
            simp only [analyze, hcopy]
            rw [if_neg hpdf, if_pos hdocx]
            simp only [hext]
            rw [if_pos hblank]
            exact ⟨by trivial, by trivial, fun r hEq => HttpResponse.noConfusion hEq⟩
          · cases hllm : or.llm (analysisPrompt job_title (List.intercalate (S "\n") ps)) with
            | error e =>
              left
              simp only [analyze, hcopy]
              rw [if_neg hpdf, if_pos hdocx]
              simp only [hext]
              rw [if_neg hblank]
              simp only [hllm]
              exact ⟨by trivial, by trivial, fun r hEq => HttpResponse.noConfusion hEq⟩
            | ok response_text =>
              cases hparse : cleanAndParseResponse or.loads response_text with
              | error pe =>
                left
                simp only [analyze, hcopy]
                rw [if_neg hpdf, if_pos hdocx]
                simp only [hext]
                rw [if_neg hblank]
                simp only [hllm, hparse]
                exact ⟨by trivial, by trivial, fun r hEq => HttpResponse.noConfusion hEq⟩
              | ok v =>
                right
                refine ⟨v, (List.intercalate (S "\n") ps).take 2000, ?_⟩
                simp only [analyze, hcopy]
                rw [if_neg hpdf, if_pos hdocx]
                simp only [hext]
                rw [if_neg hblank]
                simp only [hllm, hparse]
                rw [cacheSet_fresh _ h, cacheSet_append_self _ _ h]
                exact ⟨by trivial, by trivial, by trivial⟩
      · left
        simp only [analyze, hcopy]
        rw [if_neg hpdf, if_neg hdocx]
        exact ⟨by trivial, by trivial, fun r hEq => HttpResponse.noConfusion hEq⟩

/-!  ## Run-level lemmas -/

theorem cacheGet_isSome_of_mem {J : Type} {c : Cache J} {k : Str}
    (h : k ∈ cacheKeys c) : (cacheGet c k).isSome = true := by
  induction c with
  | nil => simp [cacheKeys] at h
  | cons p rest ih =>
    obtain ⟨k', v⟩ := p
    by_cases he : k' = k
    · simp [cacheGet, he]
    · rw [cacheKeys_cons] at h
      rcases List.mem_cons.mp h with h1 | h2
      · exact absurd h1.symm he
      · simp only [cacheGet, if_neg he]
        exact ih h2

theorem stepCache_eq_or_append {J : Type} (c : Cache J) (r : Request J)
    (h : match r with
      | Request.analyzeReq or _ _ => or.freshId ∉ cacheKeys c
      | Request.readOnlyReq => True) :
    stepCache c r = c ∨
    ∃ (k : Str) (v : CachedResult J), k ∉ cacheKeys c ∧ stepCache c r = c ++ [(k, v)] := by
  cases r with
  | readOnlyReq => left; rfl
  | analyzeReq or filename job_title =>
    rcases analyze_cacheStates_shape or c filename job_title h with
      ⟨hfin, _, _⟩ | ⟨v, preview, _, hfin, _⟩
    · left; exact hfin
    · right; exact ⟨or.freshId, ⟨v, preview, some or.freshId⟩, h, hfin⟩

theorem stepCache_preserves_get {J : Type} {c : Cache J} {r : Request J} {k : Str}
    {v : CachedResult J}
    (h : match r with
      | Request.analyzeReq or _ _ => or.freshId ∉ cacheKeys c
      | Request.readOnlyReq => True)
    (hg : cacheGet c k = some v) : cacheGet (stepCache c r) k = some v := by
  rcases stepCache_eq_or_append c r h with he | ⟨k', v', _, he⟩
  · rw [he]; exact hg
  · rw [he]; exact cacheGet_append_left _ hg

theorem foldCache_cons {J : Type} (c : Cache J) (r : Request J) (rs : List (Request J)) :
    foldCache c (r :: rs) = foldCache (stepCache c r) rs := rfl

theorem foldCache_preserves_get {J : Type} :
    ∀ (reqs : List (Request J)) (c : Cache J), FreshRun c reqs →
    ∀ (k : Str) (v : CachedResult J), cacheGet c k = some v →
    cacheGet (foldCache c reqs) k = some v := by
  intro reqs
  induction reqs with
  | nil => intro c _ k v hg; exact hg
  | cons r rs ih =>
    intro c hfr k v hg
    obtain ⟨hr, hrest⟩ := hfr
    rw [foldCache_cons]
    exact ih (stepCache c r) hrest k v (stepCache_preserves_get hr hg)

theorem foldCache_append {J : Type} (c : Cache J) (xs ys : List (Request J)) :
    foldCache c (xs ++ ys) = foldCache (foldCache c xs) ys := by
  simp [foldCache, List.foldl_append]

theorem freshRun_append {J : Type} :
    ∀ (xs ys : List (Request J)) (c : Cache J),
    FreshRun c (xs ++ ys) ↔ (FreshRun c xs ∧ FreshRun (foldCache c xs) ys) := by
  intro xs
  induction xs with
  | nil =>
    intro ys c
    simp only [List.nil_append, foldCache, List.foldl_nil]
    exact ⟨fun h => ⟨trivial, h⟩, fun h => h.2⟩
  | cons r rs ih =>
    intro ys c
    simp only [List.cons_append, FreshRun, foldCache_cons, List.append_eq]
    rw [ih]
    tauto

theorem traceCaches_head {J : Type} (c : Cache J) (reqs : List (Request J)) :
    (traceCaches c reqs).head? = some c := by
  cases reqs <;> rfl

theorem stepCache_nodup {J : Type} {c : Cache J} {r : Request J}
    (hnd : (cacheKeys c).Nodup)
    (h : match r with
      | Request.analyzeReq or _ _ => or.freshId ∉ cacheKeys c
      | Request.readOnlyReq => True) :
    (cacheKeys (stepCache c r)).Nodup := by
  rcases stepCache_eq_or_append c r h with he | ⟨k', v', hk', he⟩
  · rw [he]; exact hnd
  · rw [he]; exact cacheKeys_nodup_append _ hnd hk'

theorem traceCaches_chain {J : Type} :
    ∀ (reqs : List (Request J)) (c : Cache J), FreshRun c reqs →
    List.Chain'
      (fun a b => (∀ k, k ∈ cacheKeys a → k ∈ cacheKeys b) ∧
        (∀ (k : Str) (v : CachedResult J), cacheGet a k = some v → cacheGet b k = some v))
      (traceCaches c reqs) := by
  intro reqs
  induction reqs with
  | nil => intro c _; simp [traceCaches]
  | cons r rs ih =>
    intro c hfr
    obtain ⟨hr, hrest⟩ := hfr
    rw [traceCaches]
    rw [List.chain'_cons']
    refine ⟨?_, ih (stepCache c r) hrest⟩
    intro b hb
    rw [traceCaches_head] at hb
    obtain rfl : stepCache c r = b := by simpa using hb
    constructor
    · intro k hk
      obtain ⟨v, hv⟩ := Option.isSome_iff_exists.mp (cacheGet_isSome_of_mem hk)
      exact mem_cacheKeys_of_get (stepCache_preserves_get hr hv)
    · intro k v hv
      exact stepCache_preserves_get hr hv

theorem traceCaches_nodup {J : Type} :
    ∀ (reqs : List (Request J)) (c : Cache J), (cacheKeys c).Nodup → FreshRun c reqs →
    ∀ d ∈ traceCaches c reqs, (cacheKeys d).Nodup := by
  intro reqs
  induction reqs with
  | nil =>
    intro c hnd _ d hd
    simp only [traceCaches, List.mem_singleton] at hd
    exact hd ▸ hnd
  | cons r rs ih =>
    intro c hnd hfr d hd
    obtain ⟨hr, hrest⟩ := hfr
    rw [traceCaches] at hd
    rcases List.mem_cons.mp hd with rfl | hd'
    · exact hnd
    · exact ih (stepCache c r) (stepCache_nodup hnd hr) hrest d hd'

/-!  ## Code-fence removal lemmas -/

theorem replaceTicks_cons_of_not_fence (a : Char) (l : Str)
    (h : ¬ (a = '\x60' ∧ l.take 2 = ['\x60', '\x60'])) :
    replaceTicks (a :: l) = a :: replaceTicks l := by
  cases l with
  | nil => rfl
  | cons x l1 =>
    cases l1 with
    | nil => rfl
    | cons y l' =>
      have hno : ¬ (a = '\x60' ∧ x = '\x60' ∧ y = '\x60') := by
        rintro ⟨h1, h2, h3⟩
        exact h ⟨h1, by simp [h2, h3]⟩
      simp [replaceTicks, hno]

theorem fenceFreeB_cons (a : Char) (xs : Str) (h1 : fenceFreeB xs = true)
    (h2 : ¬ (a = '\x60' ∧ xs.take 2 = ['\x60', '\x60'])) :
    fenceFreeB (a :: xs) = true := by
  cases xs with
  | nil => rfl
  | cons b xs1 =>
    cases xs1 with
    | nil => rfl
    | cons c rest =>
      have hno : ¬ (a = '\x60' ∧ b = '\x60' ∧ c = '\x60') := by
        rintro ⟨ha, hb, hc⟩
        exact h2 ⟨ha, by simp [hb, hc]⟩
      simp only [fenceFreeB, if_neg hno]
      exact h1

theorem replaceTicks_take2_ne (b c : Char) (rest : Str)
    (h : ¬ (b = '\x60' ∧ c = '\x60')) :
    ¬ ((replaceTicks (b :: c :: rest)).take 2 = ['\x60', '\x60']) := by
  by_cases hb : b = '\x60'
  · have hc : ¬ c = '\x60' := fun hc => h ⟨hb, hc⟩
    have e1 : replaceTicks (b :: c :: rest) = b :: replaceTicks (c :: rest) := by
      apply replaceTicks_cons_of_not_fence
      rintro ⟨_, ht⟩
      have htake : (c :: rest).take 2 = c :: rest.take 1 := rfl
      rw [htake] at ht
      simp at ht
      exact hc ht.1
    have e2 : replaceTicks (c :: rest) = c :: replaceTicks rest :=
      replaceTicks_cons_of_not_fence c rest (fun hcr => hc hcr.1)
    rw [e1, e2]
    intro ht
    have htake : (b :: c :: replaceTicks rest).take 2 = [b, c] := rfl
    rw [htake] at ht
    simp at ht
    exact hc ht.2
  · have e1 : replaceTicks (b :: c :: rest) = b :: replaceTicks (c :: rest) :=
      replaceTicks_cons_of_not_fence b (c :: rest) (fun hbr => hb hbr.1)
    rw [e1]
    intro ht
    have htake : (b :: replaceTicks (c :: rest)).take 2 =
      b :: (replaceTicks (c :: rest)).take 1 := rfl
    rw [htake] at ht
    simp at ht
    exact hb ht.1

theorem replaceTicks_fenceFree : (s : Str) → fenceFreeB (replaceTicks s) = true
  | [] => rfl
  | [_] => rfl
  | [_, _] => rfl
  | a :: b :: c :: rest => by
    by_cases hf : a = '\x60' ∧ b = '\x60' ∧ c = '\x60'
    · have e : replaceTicks (a :: b :: c :: rest) = replaceTicks rest := by
        simp [replaceTicks, hf]
      rw [e]
      exact replaceTicks_fenceFree rest
    · have e : replaceTicks (a :: b :: c :: rest) = a :: replaceTicks (b :: c :: rest) := by
        simp [replaceTicks, hf]
      rw [e]
      apply fenceFreeB_cons
      · exact replaceTicks_fenceFree (b :: c :: rest)
      · rintro ⟨ha, ht⟩
        have hbc : ¬ (b = '\x60' ∧ c = '\x60') := fun hbc => hf ⟨ha, hbc.1, hbc.2⟩
        exact replaceTicks_take2_ne b c rest hbc ht

/-!  ## Concrete oracles for witnesses and counterexamples -/

/-- An all-success run of `/analyze`: the copy succeeds, the PDF decoder
yields the text `"x"`, the LLM answers with the two-character JSON
object, `json.loads` succeeds, and `uuid4` yields `"id-1"`. -/
def okOracles : AnalyzeOracles Unit :=
  ⟨Except.ok (), Except.ok (S "x"), Except.ok [], fun _ => Except.ok (S "\x7b\x7d"),
   fun _ => some (), S "id-1"⟩

/-- A run whose `shutil.copyfileobj` raises. -/
def copyFailOracles : AnalyzeOracles Unit :=
  ⟨Except.error (S "disk full"), Except.ok (S "x"), Except.ok [],
   fun _ => Except.ok (S "\x7b\x7d"), fun _ => some (), S "id-1"⟩

/-- A run whose PDF decoder yields whitespace-only text. -/
def blankOracles : AnalyzeOracles Unit :=
  ⟨Except.ok (), Except.ok (S " \n "), Except.ok [],
   fun _ => Except.ok (S "\x7b\x7d"), fun _ => some (), S "id-1"⟩

/-- A rewrite LLM oracle answering with a fenced text. -/
def fencedRewriteOracles : RewriteOracles :=
  ⟨fun _ => Except.ok (S "\x60\x60\x60ab\x60\x60\x60")⟩

theorem rewrite_llmPrompt (or : RewriteOracles) (job_title text : Option Str) :
    (rewrite or job_title text).llmPrompt =
      rewritePrompt (job_title.getD (S "the user-specified position"))
        ((text.getD []).take 8000) := by
  simp only [rewrite]
  cases or.llm (rewritePrompt (job_title.getD (S "the user-specified position"))
    ((text.getD []).take 8000)) <;> rfl

/-!  ## Claims -/

/-- Claim C1.  For every raw LLM response string, the tolerant JSON
extraction in `/analyze` takes the substring from the first `\x7b` to the
last `\x7d` (greedy, spanning newlines, not balance-aware) as the
candidate; if no such span exists the operation fails with the
no-JSON-found error, and if the candidate fails to parse as JSON the
operation fails with the malformed-JSON error; otherwise the parsed
object is returned. -/
theorem C1_tolerant_json_extraction {J : Type} (loads : Str → Option J) (rawText : Str) :
    cleanAndParseResponse loads rawText =
      (match specJsonCandidate rawText with
       | none => Except.error AnalyzeParseError.NoJsonFound
       | some candidate =>
         match loads candidate with
         | some v => Except.ok v
         | none => Except.error AnalyzeParseError.MalformedJson) := by
  simp only [cleanAndParseResponse, reSearchJsonObject_eq_spec]
  cases specJsonCandidate rawText with
  | none => rfl
  | some cand => cases loads cand <;> rfl

/-- Counterexample to claim C2.  The claim "the value stored under a key is
never modified after insertion" is false: in a successful `/analyze`
run, line 181 inserts the result dict into `analysis_cache` and line 182
then mutates the aliased cached dict by attaching `result_id`.  On the
concrete all-success run, the value cached under `"id-1"` right after
the insertion (second cache state) differs from the value under the same
key one statement later (third cache state). -/
theorem C2_counterexample_mutated_after_insert :
    ((analyze okOracles ([] : Cache Unit) (S "a.pdf") []).cacheStates.map
      (fun st => cacheGet st (S "id-1"))) =
      [none, some ⟨(), S "x", none⟩, some ⟨(), S "x", some (S "id-1")⟩] := by
  rfl

/-- Claim C2, amended.  For every sequence of requests with fresh
generated ids, each key is assigned by at most one request, no key is
ever removed, and the value stored under a key is never modified after
its `/analyze` request completes; within the inserting request the value
is written twice in immediate succession — once without `result_id` at
insertion (line 181) and once with `result_id = key` (line 182) — and is
never touched afterwards.  Formally: (1) one `/analyze` request either
leaves the cache unchanged or appends exactly one fresh entry whose
value is first the untagged and then the tagged result; (2) along the
request-boundary states of any run from the empty cache, keys only
accumulate, every cached entry is preserved unchanged, and keys stay
pairwise distinct. -/
theorem C2_amended_insert_once_then_frozen {J : Type} :
    (∀ (or : AnalyzeOracles J) (c : Cache J) (filename job_title : Str),
      or.freshId ∉ cacheKeys c →
      ((analyze or c filename job_title).finalCache = c ∧
       (analyze or c filename job_title).cacheStates = [c]) ∨
      (∃ (v : J) (preview : Str),
       (analyze or c filename job_title).response =
         HttpResponse.ok ⟨v, preview, some or.freshId⟩ ∧
       (analyze or c filename job_title).finalCache =
         c ++ [(or.freshId, ⟨v, preview, some or.freshId⟩)] ∧
       (analyze or c filename job_title).cacheStates =
         [c, c ++ [(or.freshId, ⟨v, preview, none⟩)],
          c ++ [(or.freshId, ⟨v, preview, some or.freshId⟩)]])) ∧
    (∀ reqs : List (Request J), FreshRun ([] : Cache J) reqs →
      List.Chain' (fun a b =>
        (∀ k, k ∈ cacheKeys a → k ∈ cacheKeys b) ∧
        (∀ (k : Str) (v : CachedResult J), cacheGet a k = some v → cacheGet b k = some v))
        (traceCaches ([] : Cache J) reqs) ∧
      (∀ d ∈ traceCaches ([] : Cache J) reqs, (cacheKeys d).Nodup)) :=
  ⟨fun or c filename job_title h =>
    (analyze_cacheStates_shape or c filename job_title h).imp
      (fun hL => ⟨hL.1, hL.2.1⟩) id,
   fun reqs hfr => ⟨traceCaches_chain reqs [] hfr,
     traceCaches_nodup reqs [] (by simp [cacheKeys]) hfr⟩⟩

/-- Witness for the amended C2, at a concrete one-request run. -/
theorem C2_amended_witness :
    List.Chain' (fun a b =>
      (∀ k, k ∈ cacheKeys a → k ∈ cacheKeys b) ∧
      (∀ (k : Str) (v : CachedResult Unit), cacheGet a k = some v → cacheGet b k = some v))
      (traceCaches ([] : Cache Unit) [Request.analyzeReq okOracles (S "a.pdf") []]) :=
  (C2_amended_insert_once_then_frozen.2
    [Request.analyzeReq okOracles (S "a.pdf") []]
    ⟨by simp [cacheKeys], trivial⟩).1

/-- Claim C4.  For every uploaded file whose extension (lower-cased) is
neither `.pdf` nor `.docx`, `/analyze` fails with the unsupported-type
400 response without invoking the LLM oracle; and exactly `.pdf` and
`.docx` are accepted: when the lower-cased extension is one of them, the
unsupported-type response is never produced. -/
theorem C4_unsupported_extension {J : Type} (or : AnalyzeOracles J) (cache : Cache J)
    (filename job_title : Str) (hcopy : or.copyToTemp = Except.ok ()) :
    ((¬ pyLower (splitextExt filename) = S ".pdf") →
     (¬ pyLower (splitextExt filename) = S ".docx") →
     (analyze or cache filename job_title).response =
       HttpResponse.badRequest unsupportedDetail ∧
     (analyze or cache filename job_title).llmPrompt = none) ∧
    ((pyLower (splitextExt filename) = S ".pdf" ∨
      pyLower (splitextExt filename) = S ".docx") →
     ¬ (analyze or cache filename job_title).response =
       HttpResponse.badRequest unsupportedDetail) := by
  constructor
  · intro h1 h2
    simp only [analyze, hcopy]
    rw [if_neg h1, if_neg h2]
    exact ⟨by trivial, by trivial⟩
  · intro hsup
    have hdetail : ¬ (emptyExtractionDetail = unsupportedDetail) := by decide
    rcases hsup with hpdf | hdocx
    · cases hext : or.extract_pdf with
      | error e =>
        simp only [analyze, hcopy]
        rw [if_pos hpdf]
        simp only [hext]
        intro hEq; cases hEq
      | ok text =>
        by_cases hblank : text.all pyIsSpace = true
        · simp only [analyze, hcopy]
          rw [if_pos hpdf]
          simp only [hext]
          rw [if_pos hblank]
          intro hEq
          rw [HttpResponse.badRequest.injEq] at hEq
          exact hdetail hEq
        · cases hllm : or.llm (analysisPrompt job_title text) with
          | error e =>
            simp only [analyze, hcopy]
            rw [if_pos hpdf]
            simp only [hext]
            rw [if_neg hblank]
            simp only [hllm]
            intro hEq; cases hEq
          | ok rt =>
            cases hparse : cleanAndParseResponse or.loads rt with
            | error pe =>
              simp only [analyze, hcopy]
              rw [if_pos hpdf]
              simp only [hext]
              rw [if_neg hblank]
              simp only [hllm, hparse]
              intro hEq; cases hEq
            | ok v =>
              simp only [analyze, hcopy]
              rw [if_pos hpdf]
              simp only [hext]
              rw [if_neg hblank]
              simp only [hllm, hparse]
              intro hEq; cases hEq
    · have hne : ¬ pyLower (splitextExt filename) = S ".pdf" := by
        rw [hdocx]; decide
      cases hext : or.docxParagraphs with
      | error e =>
        simp only [analyze, hcopy]
        rw [if_neg hne, if_pos hdocx]
        simp only [hext]
        intro hEq; cases hEq
      | ok ps =>
        by_cases hblank : (List.intercalate (S "\n") ps).all pyIsSpace = true
        · simp only [analyze, hcopy]
          rw [if_neg hne, if_pos hdocx]
          simp only [hext]
          rw [if_pos hblank]
          intro hEq
          rw [HttpResponse.badRequest.injEq] at hEq
          exact hdetail hEq
        · cases hllm : or.llm (analysisPrompt job_title (List.intercalate (S "\n") ps)) with
          | error e =>
            simp only [analyze, hcopy]
            rw [if_neg hne, if_pos hdocx]
            simp only [hext]
            rw [if_neg hblank]
            simp only [hllm]
            intro hEq; cases hEq
          | ok rt =>
            cases hparse : cleanAndParseResponse or.loads rt with
            | error pe =>
              simp only [analyze, hcopy]
              rw [if_neg hne, if_pos hdocx]
              simp only [hext]
              rw [if_neg hblank]
              simp only [hllm, hparse]
              intro hEq; cases hEq
            | ok v =>
              simp only [analyze, hcopy]
              rw [if_neg hne, if_pos hdocx]
              simp only [hext]
              rw [if_neg hblank]
              simp only [hllm, hparse]
              intro hEq; cases hEq

/-- Witness for C4 at the concrete extension `.txt`. -/
theorem C4_witness :
    (analyze okOracles ([] : Cache Unit) (S "resume.txt") []).response =
      HttpResponse.badRequest unsupportedDetail ∧
    (analyze okOracles ([] : Cache Unit) (S "resume.txt") []).llmPrompt = none :=
  (C4_unsupported_extension okOracles [] (S "resume.txt") [] rfl).1
    (by decide) (by decide)

/-- Claim C5.  For every supported (`.pdf`/`.docx`) input whose extracted
text is empty or whitespace-only, `/analyze` fails with the
empty-extraction 400 response without invoking the LLM oracle. -/
theorem C5_empty_extraction {J : Type} (or : AnalyzeOracles J) (cache : Cache J)
    (filename job_title text : Str)
    (hcopy : or.copyToTemp = Except.ok ())
    (hroute : (pyLower (splitextExt filename) = S ".pdf" ∧
        or.extract_pdf = Except.ok text) ∨
      (pyLower (splitextExt filename) = S ".docx" ∧
       ∃ ps, or.docxParagraphs = Except.ok ps ∧ text = List.intercalate (S "\n") ps))
    (hblank : text.all pyIsSpace = true) :
    (analyze or cache filename job_title).response =
      HttpResponse.badRequest emptyExtractionDetail ∧
    (analyze or cache filename job_title).llmPrompt = none := by
  rcases hroute with ⟨hpdf, hext⟩ | ⟨hdocx, ps, hext, htext⟩
  · simp only [analyze, hcopy]
    rw [if_pos hpdf]
    simp only [hext]
    rw [if_pos hblank]
    exact ⟨by trivial, by trivial⟩
  · have hne : ¬ pyLower (splitextExt filename) = S ".pdf" := by
      rw [hdocx]; decide
    subst htext
    simp only [analyze, hcopy]
    rw [if_neg hne, if_pos hdocx]
    simp only [hext]
    rw [if_pos hblank]
    exact ⟨by trivial, by trivial⟩

/-- Witness for C5 at a concrete whitespace-only PDF extraction. -/
theorem C5_witness :
    (analyze blankOracles ([] : Cache Unit) (S "a.pdf") []).response =
      HttpResponse.badRequest emptyExtractionDetail ∧
    (analyze blankOracles ([] : Cache Unit) (S "a.pdf") []).llmPrompt = none :=
  C5_empty_extraction blankOracles [] (S "a.pdf") [] (S " \n ") rfl
    (Or.inl ⟨by decide, rfl⟩) (by decide)

/-- Claim C3.  For any run with fresh generated ids: every successful
`/analyze` call generates a `result_id` distinct from all ids present in
the cache (first two conjuncts; uuid4 is modelled by the `FreshRun`
oracle assumption), inserts its result under that id, and a subsequent
`GET /result/{id}` — after arbitrary further requests — returns exactly
the result cached under that id, including its `raw_text_preview` and
`result_id` fields (the returned `r` carries both); `GET /result/{id}`
for an id never inserted fails with the 404 not-found response. -/
theorem C3_result_roundtrip {J : Type} (pre post : List (Request J))
    (or : AnalyzeOracles J) (filename job_title : Str) (r : CachedResult J)
    (hfr : FreshRun ([] : Cache J)
      (pre ++ Request.analyzeReq or filename job_title :: post))
    (hok : (analyze or (foldCache ([] : Cache J) pre) filename job_title).response =
      HttpResponse.ok r) :
    r.result_id = some or.freshId ∧
    or.freshId ∉ cacheKeys (foldCache ([] : Cache J) pre) ∧
    get_result (foldCache ([] : Cache J)
      (pre ++ Request.analyzeReq or filename job_title :: post)) or.freshId =
      HttpResponse.ok r ∧
    (∀ k, k ∉ cacheKeys (foldCache ([] : Cache J)
        (pre ++ Request.analyzeReq or filename job_title :: post)) →
      get_result (foldCache ([] : Cache J)
        (pre ++ Request.analyzeReq or filename job_title :: post)) k =
        HttpResponse.notFound resultNotFoundDetail) := by
  obtain ⟨hpre, hrest⟩ :=
    (freshRun_append pre (Request.analyzeReq or filename job_title :: post) []).mp hfr
  obtain ⟨hr, hpost⟩ := hrest
  rcases analyze_cacheStates_shape or (foldCache [] pre) filename job_title hr with
    ⟨_, _, hnone⟩ | ⟨v, preview, hresp, hfin, _⟩
  · exact absurd hok (hnone r)
  · rw [hresp] at hok
    rw [HttpResponse.ok.injEq] at hok
    subst hok
    have hstep : stepCache (foldCache ([] : Cache J) pre)
        (Request.analyzeReq or filename job_title) =
        foldCache ([] : Cache J) pre ++
          [(or.freshId, ⟨v, preview, some or.freshId⟩)] := hfin
    have hfold : foldCache ([] : Cache J)
        (pre ++ Request.analyzeReq or filename job_title :: post) =
        foldCache (stepCache (foldCache ([] : Cache J) pre)
          (Request.analyzeReq or filename job_title)) post := by
      rw [foldCache_append, foldCache_cons]
    have hget : cacheGet (stepCache (foldCache ([] : Cache J) pre)
        (Request.analyzeReq or filename job_title)) or.freshId =
        some ⟨v, preview, some or.freshId⟩ := by
      rw [hstep]
      exact cacheGet_append_single_self _ hr
    have hfinal : cacheGet (foldCache ([] : Cache J)
        (pre ++ Request.analyzeReq or filename job_title :: post)) or.freshId =
        some ⟨v, preview, some or.freshId⟩ := by
      rw [hfold]
      exact foldCache_preserves_get post _ hpost _ _ hget
    refine ⟨rfl, hr, ?_, ?_⟩
    · simp [get_result, hfinal]
    · intro k hk
      simp [get_result, cacheGet_none_of_not_mem hk]

/-- Witness for C3, at a concrete one-request run. -/
theorem C3_witness :
    get_result (foldCache ([] : Cache Unit)
      [Request.analyzeReq okOracles (S "a.pdf") []]) (S "id-1") =
      HttpResponse.ok ⟨(), S "x", some (S "id-1")⟩ ∧
    get_result (foldCache ([] : Cache Unit)
      [Request.analyzeReq okOracles (S "a.pdf") []]) (S "zz") =
      HttpResponse.notFound resultNotFoundDetail := by
  have h := C3_result_roundtrip [] [] okOracles (S "a.pdf") []
    ⟨(), S "x", some (S "id-1")⟩ ⟨by simp [cacheKeys], trivial⟩ (by rfl)
  exact ⟨h.2.2.1, h.2.2.2 (S "zz") (by decide)⟩

/-- Claim C6.  For every extracted resume text, the LLM prompt built by
`/analyze` embeds exactly the first 8000 characters of the text (the
prompt depends on the text only through `text.take 8000` and contains it
verbatim), while the `raw_text_preview` field of the returned and cached
result is exactly the first 2000 characters of the originally extracted
text, independent of the prompt truncation; in particular for text
longer than 8000 characters no error is raised (the conclusion holds for
arbitrary `text`). -/
theorem C6_prompt_truncation {J : Type} (or : AnalyzeOracles J) (cache : Cache J)
    (filename job_title text response_text : Str) (v : J)
    (hcopy : or.copyToTemp = Except.ok ())
    (hroute : (pyLower (splitextExt filename) = S ".pdf" ∧
        or.extract_pdf = Except.ok text) ∨
      (pyLower (splitextExt filename) = S ".docx" ∧
       ∃ ps, or.docxParagraphs = Except.ok ps ∧ text = List.intercalate (S "\n") ps))
    (hblank : ¬ text.all pyIsSpace = true)
    (hllm : or.llm (analysisPrompt job_title text) = Except.ok response_text)
    (hparse : cleanAndParseResponse or.loads response_text = Except.ok v) :
    (analyze or cache filename job_title).llmPrompt =
      some (analysisPrompt job_title text) ∧
    analysisPrompt job_title text = analysisPrompt job_title (text.take 8000) ∧
    (∃ before after, analysisPrompt job_title text =
      before ++ text.take 8000 ++ after) ∧
    (analyze or cache filename job_title).response =
      HttpResponse.ok ⟨v, text.take 2000, some or.freshId⟩ := by
  have hprompt2 : analysisPrompt job_title text =
      analysisPrompt job_title (text.take 8000) := by
    simp [analysisPrompt, List.take_take]
  have hembed : ∃ before after, analysisPrompt job_title text =
      before ++ text.take 8000 ++ after := by
    by_cases hjt : job_title.any (fun c => !(pyIsSpace c)) = true
    · refine ⟨analysisTitledPre ++ job_title ++ analysisTitledMid,
        analysisTitledPost, ?_⟩
      simp only [analysisPrompt]
      rw [if_pos hjt]
      rfl
    · refine ⟨analysisGeneralPre, analysisGeneralPost, ?_⟩
      simp only [analysisPrompt]
      rw [if_neg hjt]
      rfl
  rcases hroute with ⟨hpdf, hext⟩ | ⟨hdocx, ps, hext, htext⟩
  · refine ⟨?_, hprompt2, hembed, ?_⟩ <;>
      (simp only [analyze, hcopy]
       rw [if_pos hpdf]
       simp only [hext]
       rw [if_neg hblank]
       simp only [hllm, hparse])
  · have hne : ¬ pyLower (splitextExt filename) = S ".pdf" := by
      rw [hdocx]; decide
    subst htext
    refine ⟨?_, hprompt2, hembed, ?_⟩ <;>
      (simp only [analyze, hcopy]
       rw [if_neg hne, if_pos hdocx]
       simp only [hext]
       rw [if_neg hblank]
       simp only [hllm, hparse])

/-- Witness for C6 at a concrete successful run. -/
theorem C6_witness :
    (analyze okOracles ([] : Cache Unit) (S "a.pdf") (S "dev")).llmPrompt =
      some (analysisPrompt (S "dev") (S "x")) ∧
    (analyze okOracles ([] : Cache Unit) (S "a.pdf") (S "dev")).response =
      HttpResponse.ok ⟨(), S "x", some (S "id-1")⟩ := by
  have h := C6_prompt_truncation okOracles [] (S "a.pdf") (S "dev") (S "x")
    (S "\x7b\x7d") () rfl (Or.inl ⟨by decide, rfl⟩) (by decide) rfl (by rfl)
  exact ⟨h.1, h.2.2.2⟩

/-- Counterexample to claim C7.  The claim "the temporary file is deleted on
every path" is false: lines 126-128 assign `temp_file_path` only after
`shutil.copyfileobj` has succeeded, so when the copy raises, the
`finally` block's guard `if temp_file_path and os.path.exists(...)` is
false and the already-created temporary file is not removed.  On the
concrete run whose copy oracle raises, the temp file was created but not
deleted. -/
theorem C7_counterexample_copy_failure_leaks :
    (analyze copyFailOracles ([] : Cache Unit) (S "a.pdf") []).tempCreated = true ∧
    (analyze copyFailOracles ([] : Cache Unit) (S "a.pdf") []).tempDeleted = false :=
  ⟨rfl, rfl⟩

/-- Claim C7, amended.  For every `/analyze` request whose upload is
successfully copied into the temporary file, the temporary file is
deleted before the request completes on every path — success,
unsupported-type failure, empty-extraction failure, and LLM/parse
failure alike; only a failure of the copy itself (before
`temp_file_path` is assigned) leaks the file. -/
theorem C7_amended_temp_deleted_when_copy_succeeds {J : Type}
    (or : AnalyzeOracles J) (cache : Cache J) (filename job_title : Str)
    (hcopy : or.copyToTemp = Except.ok ()) :
    (analyze or cache filename job_title).tempCreated = true ∧
    (analyze or cache filename job_title).tempDeleted = true := by
  refine ⟨?_, ?_⟩ <;>
    (simp only [analyze, hcopy]
     repeat' split) <;> rfl

/-- Witness for the amended C7 at a concrete successful copy. -/
theorem C7_amended_witness :
    (analyze okOracles ([] : Cache Unit) (S "a.pdf") []).tempDeleted = true :=
  (C7_amended_temp_deleted_when_copy_succeeds okOracles [] (S "a.pdf") [] rfl).2

/-- Claim C8.  For every input, `/rewrite` never returns an error status:
on LLM success it returns a 200 response whose `optimized_text` is the
oracle's text with all code-fence markers removed (and the result indeed
contains no three-backtick run), and on any LLM failure it returns a 200
response whose `optimized_text` is the error-annotated string carrying
the failure message. -/
theorem C8_rewrite_never_errors (or : RewriteOracles) (job_title text : Option Str) :
    (∃ t, or.llm ((rewrite or job_title text).llmPrompt) = Except.ok t ∧
      (rewrite or job_title text).response = HttpResponse.ok (replaceTicks t) ∧
      fenceFreeB (replaceTicks t) = true) ∨
    (∃ e, or.llm ((rewrite or job_title text).llmPrompt) = Except.error e ∧
      (rewrite or job_title text).response = HttpResponse.ok (S "Error: " ++ e)) := by
  rw [rewrite_llmPrompt]
  cases hl : or.llm (rewritePrompt (job_title.getD (S "the user-specified position"))
      ((text.getD []).take 8000)) with
  | ok t =>
    left
    refine ⟨t, rfl, ?_, replaceTicks_fenceFree t⟩
    simp [rewrite, hl]
  | error e =>
    right
    refine ⟨e, rfl, ?_⟩
    simp [rewrite, hl]

/-- Claim C9.  For every `/create-checkout-session` request made while the
payment-processor credential is unconfigured (falsy `stripe.api_key`),
the endpoint fails immediately with the 500 response, without contacting
the payment oracle and without constructing a session payload. -/
theorem C9_checkout_unconfigured (api_key : Option Str) (oracle : Except Str Str)
    (origin_url : Option Str) (h : pyTruthy api_key = false) :
    checkout api_key oracle origin_url =
      ⟨HttpResponse.serverError processorNotConfiguredDetail, false, none⟩ := by
  simp [checkout, h]

/-- Witness for C9 with no credential configured. -/
theorem C9_witness :
    checkout none (Except.ok (S "https://pay.example/session"))
      (some (S "https://app.example")) =
      ⟨HttpResponse.serverError processorNotConfiguredDetail, false, none⟩ :=
  C9_checkout_unconfigured none _ _ rfl

/-- Claim C10.  For every `/rewrite` request whose body lacks a
`job_title` key, the prompt sent to the LLM embeds the literal
placeholder `the user-specified position` as the target role; and there
is no separate general-rewrite prompt: for every job title the same
single template is used. -/
theorem C10_rewrite_placeholder_job_title (or : RewriteOracles) (text : Option Str) :
    (rewrite or none text).llmPrompt =
      rewritePrompt (S "the user-specified position") ((text.getD []).take 8000) ∧
    (∃ before after, (rewrite or none text).llmPrompt =
      before ++ S "the user-specified position" ++ after) ∧
    (∀ jt : Str, (rewrite or (some jt) text).llmPrompt =
      rewritePrompt jt ((text.getD []).take 8000)) := by
  refine ⟨rewrite_llmPrompt or none text, ?_,
    fun jt => rewrite_llmPrompt or (some jt) text⟩
  refine ⟨rewritePromptPre, rewritePromptMid ++ (text.getD []).take 8000, ?_⟩
  rw [rewrite_llmPrompt]
  simp [rewritePrompt, List.append_assoc]
